import Mathlib

/-!
Shallow embedding of the data-flow visualization app (`app.py`).

A pandas cell is either missing (NaN) or a string value; we model it as
`Option String`.  A table is a header (column names) plus a list of rows,
each row a list of cells positionally aligned with the header.
-/

set_option maxRecDepth 8192

/-- A pandas cell: `none` models a missing value (NaN), `some s` a string. -/
abbrev Cell := Option String

/-- A pandas DataFrame: column names plus rows of cells aligned with the header. -/
structure Table where
  header : List String
  rows : List (List Cell)
deriving Repr, DecidableEq

/-- The fixed `expected_columns` list of `app.py`. -/
def expected_columns : List String :=
  ["Use Case/Scenario",
   "Functional Area",
   "DCL",
   "Where data is sourced from",
   "Platform used to aggregate data",
   "Platform used to analyze data",
   "Platform used to publish curated data",
   "Compliance"]

/-- `missing_cols = [col for col in expected_columns if col not in df.columns]`. -/
def missing_cols (t : Table) : List String :=
  expected_columns.filter (fun col => ¬ t.header.contains col)

/-- `df.fillna("N/A")`: every missing cell becomes the string sentinel. -/
def fillna (t : Table) : Table :=
  { t with rows := t.rows.map (fun r => r.map (fun c => some (c.getD "N/A"))) }

/-- `process_data`: validate the expected columns, then fill missing values.
On missing columns the app reports the list via `st.error` and returns `None`;
we carry the reported list in the `error` branch. -/
def process_data (t : Table) : Except (List String) Table :=
  if missing_cols t = [] then .ok (fillna t) else .error (missing_cols t)

/-- `row[col]`: positional lookup of a named cell in a row. -/
def getCell (header : List String) (row : List Cell) (col : String) : Cell :=
  row.getD (header.indexOf col) none

/-- The `networkx.DiGraph` as used by `app.py`: node list and edge list in
insertion order without duplicates, plus the per-edge `compliance` attribute
as an association list where the most recent assignment is at the head. -/
structure DiGraph where
  nodes : List Cell
  edges : List (Cell × Cell)
  compliance : List ((Cell × Cell) × Cell)
deriving Repr, DecidableEq

def DiGraph.empty : DiGraph := ⟨[], [], []⟩

/-- `G.add_node(n)`: add the node if not already present. -/
def addNode (g : DiGraph) (n : Cell) : DiGraph :=
  if n ∈ g.nodes then g else { g with nodes := g.nodes ++ [n] }

/-- `G.add_edge(u, v)`: add both endpoints as nodes, then the edge if absent. -/
def addEdge (g : DiGraph) (u v : Cell) : DiGraph :=
  let g1 := addNode (addNode g u) v
  if (u, v) ∈ g1.edges then g1 else { g1 with edges := g1.edges ++ [(u, v)] }

/-- `G[u][v]["compliance"] = c`: (re)assign the edge attribute. -/
def setCompliance (g : DiGraph) (u v : Cell) (c : Cell) : DiGraph :=
  { g with compliance := ((u, v), c) :: g.compliance }

/-- Association-list lookup for edge attributes (first match wins, i.e. the
most recent assignment). -/
def lookupAttr : List ((Cell × Cell) × Cell) → (Cell × Cell) → Option Cell
  | [], _ => none
  | kc :: rest, e => if e = kc.1 then some kc.2 else lookupAttr rest e

/-- Read an edge's `compliance` attribute (the most recent assignment wins). -/
def getCompliance (g : DiGraph) (e : Cell × Cell) : Option Cell :=
  lookupAttr g.compliance e

/-- The body of the `for idx, row in df.iterrows()` loop of
`generate_data_flow_diagram`. -/
def processRow (header : List String) (g : DiGraph) (row : List Cell) : DiGraph :=
  let source := getCell header row "Where data is sourced from"
  let agg := getCell header row "Platform used to aggregate data"
  let analysis := getCell header row "Platform used to analyze data"
  let publish := getCell header row "Platform used to publish curated data"
  let compliance := getCell header row "Compliance"
  let g := addNode g source
  let g := addNode g agg
  let g := addNode g analysis
  let g := addNode g publish
  let g := addEdge g source agg
  let g := addEdge g agg analysis
  let g := addEdge g analysis publish
  let g := setCompliance g source agg compliance
  let g := setCompliance g agg analysis compliance
  let g := setCompliance g analysis publish compliance
  g

/-- `generate_data_flow_diagram` (graph construction part; drawing is UI). -/
def generate_data_flow_diagram (t : Table) : DiGraph :=
  t.rows.foldl (processRow t.header) DiGraph.empty

/-- The three directed edges a row contributes. -/
def rowEdges (header : List String) (row : List Cell) : List (Cell × Cell) :=
  [(getCell header row "Where data is sourced from",
    getCell header row "Platform used to aggregate data"),
   (getCell header row "Platform used to aggregate data",
    getCell header row "Platform used to analyze data"),
   (getCell header row "Platform used to analyze data",
    getCell header row "Platform used to publish curated data")]

/-- The four node labels a row contributes. -/
def rowNodes (header : List String) (row : List Cell) : List Cell :=
  [getCell header row "Where data is sourced from",
   getCell header row "Platform used to aggregate data",
   getCell header row "Platform used to analyze data",
   getCell header row "Platform used to publish curated data"]

/-- A row's `(source, aggregate, analyze, publish)` label tuple. -/
def rowTuple (header : List String) (row : List Cell) : Cell × Cell × Cell × Cell :=
  (getCell header row "Where data is sourced from",
   getCell header row "Platform used to aggregate data",
   getCell header row "Platform used to analyze data",
   getCell header row "Platform used to publish curated data")

/-- A row's `Compliance` cell. -/
def rowCompliance (header : List String) (row : List Cell) : Cell :=
  getCell header row "Compliance"

/-- The three edges determined by a label tuple alone. -/
def tupleEdges (q : Cell × Cell × Cell × Cell) : List (Cell × Cell) :=
  [(q.1, q.2.1), (q.2.1, q.2.2.1), (q.2.2.1, q.2.2.2)]

/-- Helper for `pd_unique`: keep the values not seen yet, in order. -/
def pd_uniqueAux : List Cell → List Cell → List Cell
  | [], _ => []
  | x :: xs, seen => if x ∈ seen then pd_uniqueAux xs seen else x :: pd_uniqueAux xs (x :: seen)

/-- `pandas.Series.unique`: distinct values in order of first appearance. -/
def pd_unique (l : List Cell) : List Cell :=
  pd_uniqueAux l []

/-- The cells of one named column, in row order. -/
def colCells (t : Table) (col : String) : List Cell :=
  t.rows.map (fun r => getCell t.header r col)

/-- `generate_analysis_summary`: for each expected column, the number of
unique values (`len(df[col].unique())`). -/
def generate_analysis_summary (t : Table) : List (String × Nat) :=
  expected_columns.map (fun col => (col, (pd_unique (colCells t col)).length))

/-- The main application logic: on validation/read failure nothing downstream
runs; on success the diagram and the summary are produced. -/
def pipeline (t : Table) : Option (DiGraph × List (String × Nat)) :=
  match process_data t with
  | .error _ => none
  | .ok d => some (generate_data_flow_diagram d, generate_analysis_summary d)

/-- Space character. -/
def spaceChar : Char := Char.ofNat 32

/-- Newline character. -/
def newlineChar : Char := Char.ofNat 10

/-- Double-quote character. -/
def dquoteChar : Char := Char.ofNat 34

/-- Single-quote character. -/
def squoteChar : Char := Char.ofNat 39

/-- Forward-slash character. -/
def slashChar : Char := Char.ofNat 47

/-- Underscore character. -/
def underscoreChar : Char := Char.ofNat 95

/-- Dash character. -/
def dashChar : Char := Char.ofNat 45

/-- A character the sanitizer keeps: letter, digit, underscore, or dash. -/
def allowedChar (c : Char) : Bool :=
  c.isAlphanum || c == underscoreChar || c == dashChar

/-- Strip leading and trailing whitespace. -/
def trimChars (l : List Char) : List Char :=
  ((l.dropWhile Char.isWhitespace).reverse.dropWhile Char.isWhitespace).reverse

/-- Modelled from the spec: the Label Sanitizer (the text-mode variant of the
core is not in `src/`).  Steps, in order: trim leading/trailing whitespace;
newlines to spaces; double quotes to single quotes; forward slashes to
dashes; spaces to underscores; finally drop every character that is not a
letter, digit, underscore, or dash. -/
def sanitize_label (s : String) : String :=
  let s1 := trimChars s.toList
  let s2 := s1.map (fun c => if c = newlineChar then spaceChar else c)
  let s3 := s2.map (fun c => if c = dquoteChar then squoteChar else c)
  let s4 := s3.map (fun c => if c = slashChar then dashChar else c)
  let s5 := s4.map (fun c => if c = spaceChar then underscoreChar else c)
  (s5.filter allowedChar).asString

/-- Modelled from the spec: one serialized edge line `from --> to;` of the
text-mode diagram, with sanitized endpoint labels.  A missing cell reads as
the sentinel, matching the Normalizer that runs before the serializer. -/
def edgeLine (e : Cell × Cell) : String :=
  sanitize_label (e.1.getD "N/A") ++ " --> " ++ sanitize_label (e.2.getD "N/A") ++ ";"

/-- Lexicographic (codepoint) order on character lists, as a Boolean test. -/
def lexLe : List Char → List Char → Bool
  | [], _ => true
  | _ :: _, [] => false
  | a :: as, b :: bs => if a < b then true else if a = b then lexLe as bs else false

/-- Lexicographic (codepoint) order on strings. -/
def strLe (s t : String) : Bool :=
  lexLe s.toList t.toList

/-- Insert a line into a lexicographically sorted list of lines. -/
def insertLine (s : String) : List String → List String
  | [] => [s]
  | x :: xs => if strLe s x then s :: x :: xs else x :: insertLine s xs

/-- Insertion sort of lines in lexicographic order. -/
def sortLines (l : List String) : List String :=
  l.foldr insertLine []

/-- The sort relation of the Diagram Serializer as a proposition. -/
def strLeProp (a b : String) : Prop :=
  strLe a b = true

/-- Modelled from the spec: the text-mode Diagram Serializer (not in `src/`):
a fixed header line, then the deduplicated edge lines sorted
lexicographically by the full line text. -/
def text_flow_diagram (t : Table) : List String :=
  "flowchart LR;" ::
    sortLines (t.rows.flatMap (fun r => (rowEdges t.header r).map edgeLine)).dedup

/-- A sample row on the expected header: only the four lineage cells and the
compliance cell vary. -/
def exRow (src agg ana pub comp : String) : List Cell :=
  [some "u", some "f", some "d", some src, some agg, some ana, some pub, some comp]

/-- Two rows producing the same edges but disagreeing on compliance. -/
def tPerm1 : Table :=
  ⟨expected_columns, [exRow "S" "Agg" "An" "P" "Yes", exRow "S" "Agg" "An" "P" "No"]⟩

/-- The same two rows in the opposite order. -/
def tPerm2 : Table :=
  ⟨expected_columns, [exRow "S" "Agg" "An" "P" "No", exRow "S" "Agg" "An" "P" "Yes"]⟩

/-- The round-trip scenario row of the spec. -/
def salesRow : List Cell :=
  exRow "Sales DB" "ETL/Spark" "Tableau" "Data Portal" "Yes"

/-- A table holding the round-trip row once. -/
def tSales : Table := ⟨expected_columns, [salesRow]⟩

/-- A table holding the round-trip row twice. -/
def tSalesDup : Table := ⟨expected_columns, [salesRow, salesRow]⟩

/-- A table whose header misses most expected columns. -/
def tMissing : Table := ⟨["Use Case/Scenario", "DCL"], [[some "u", some "d"]]⟩

/-- A table with identical adjacent stage labels (self-loop edges). -/
def tSelfLoop : Table := ⟨expected_columns, [exRow "X" "X" "Y" "Y" "C"]⟩

/-- A sample row whose first column is the given cell. -/
def exRowFirst (u : Cell) : List Cell :=
  [u, some "f", some "d", some "S", some "Agg", some "An", some "P", some "Y"]

/-- A raw table whose first column reads `A`, `B`, `A`, missing. -/
def tSummaryRaw : Table :=
  ⟨expected_columns,
   [exRowFirst (some "A"), exRowFirst (some "B"), exRowFirst (some "A"), exRowFirst none]⟩

theorem nodes_addNode_iff (g : DiGraph) (n m : Cell) :
    m ∈ (addNode g n).nodes ↔ m ∈ g.nodes ∨ m = n := by
  unfold addNode
  split_ifs with h
  · constructor
    · exact Or.inl
    · rintro (hm | rfl)
      · exact hm
      · exact h
  · simp

theorem edges_addNode (g : DiGraph) (n : Cell) : (addNode g n).edges = g.edges := by
  unfold addNode
  split <;> rfl

theorem compliance_addNode (g : DiGraph) (n : Cell) :
    (addNode g n).compliance = g.compliance := by
  unfold addNode
  split <;> rfl

theorem edges_addEdge_iff (g : DiGraph) (u v : Cell) (e : Cell × Cell) :
    e ∈ (addEdge g u v).edges ↔ e ∈ g.edges ∨ e = (u, v) := by
  unfold addEdge
  dsimp only
  split_ifs with h
  · rw [edges_addNode, edges_addNode] at h ⊢
    constructor
    · exact Or.inl
    · rintro (hm | rfl)
      · exact hm
      · exact h
  · rw [edges_addNode, edges_addNode]
    simp

theorem nodes_addEdge_iff (g : DiGraph) (u v : Cell) (m : Cell) :
    m ∈ (addEdge g u v).nodes ↔ m ∈ g.nodes ∨ m = u ∨ m = v := by
  unfold addEdge
  dsimp only
  split_ifs with h
  · simp [nodes_addNode_iff, or_assoc]
  · simp [nodes_addNode_iff, or_assoc]

theorem compliance_addEdge (g : DiGraph) (u v : Cell) :
    (addEdge g u v).compliance = g.compliance := by
  unfold addEdge
  dsimp only
  split_ifs with h
  · simp [compliance_addNode]
  · simp [compliance_addNode]

theorem nodup_addEdge (g : DiGraph) (u v : Cell) (h : g.edges.Nodup) :
    (addEdge g u v).edges.Nodup := by
  unfold addEdge
  dsimp only
  split_ifs with hmem
  · rw [edges_addNode, edges_addNode]
    exact h
  · rw [edges_addNode, edges_addNode] at hmem ⊢
    rw [List.nodup_append]
    refine ⟨h, List.nodup_singleton _, ?_⟩
    intro x hx hx1
    rw [List.mem_singleton] at hx1
    subst hx1
    exact hmem hx

theorem nodes_setCompliance (g : DiGraph) (u v c : Cell) :
    (setCompliance g u v c).nodes = g.nodes := rfl

theorem edges_setCompliance (g : DiGraph) (u v c : Cell) :
    (setCompliance g u v c).edges = g.edges := rfl

theorem getCompliance_setCompliance (g : DiGraph) (u v c : Cell) (e : Cell × Cell) :
    getCompliance (setCompliance g u v c) e = if e = (u, v) then some c else getCompliance g e := by
  rfl

theorem getCompliance_addNode (g : DiGraph) (n : Cell) (e : Cell × Cell) :
    getCompliance (addNode g n) e = getCompliance g e := by
  unfold getCompliance
  rw [compliance_addNode]

theorem getCompliance_addEdge (g : DiGraph) (u v : Cell) (e : Cell × Cell) :
    getCompliance (addEdge g u v) e = getCompliance g e := by
  unfold getCompliance
  rw [compliance_addEdge]

theorem nodes_processRow_iff (hd : List String) (g : DiGraph) (r : List Cell) (m : Cell) :
    m ∈ (processRow hd g r).nodes ↔ m ∈ g.nodes ∨ m ∈ rowNodes hd r := by
  unfold processRow rowNodes
  dsimp only
  simp only [nodes_setCompliance, nodes_addEdge_iff, nodes_addNode_iff, List.mem_cons,
    List.not_mem_nil, or_false]
  tauto

theorem edges_processRow_iff (hd : List String) (g : DiGraph) (r : List Cell) (e : Cell × Cell) :
    e ∈ (processRow hd g r).edges ↔ e ∈ g.edges ∨ e ∈ rowEdges hd r := by
  unfold processRow rowEdges
  dsimp only
  simp only [edges_setCompliance, edges_addEdge_iff, edges_addNode, List.mem_cons,
    List.not_mem_nil, or_false]
  tauto

theorem nodup_processRow (hd : List String) (g : DiGraph) (r : List Cell)
    (hn : g.edges.Nodup) : (processRow hd g r).edges.Nodup := by
  unfold processRow
  dsimp only
  rw [edges_setCompliance, edges_setCompliance, edges_setCompliance]
  apply nodup_addEdge
  apply nodup_addEdge
  apply nodup_addEdge
  rw [edges_addNode, edges_addNode, edges_addNode, edges_addNode]
  exact hn

theorem getCompliance_processRow (hd : List String) (g : DiGraph) (r : List Cell)
    (e : Cell × Cell) :
    getCompliance (processRow hd g r) e =
      if e ∈ rowEdges hd r then some (rowCompliance hd r) else getCompliance g e := by
  unfold processRow rowEdges rowCompliance
  dsimp only
  rw [getCompliance_setCompliance, getCompliance_setCompliance, getCompliance_setCompliance,
    getCompliance_addEdge, getCompliance_addEdge, getCompliance_addEdge,
    getCompliance_addNode, getCompliance_addNode, getCompliance_addNode, getCompliance_addNode]
  simp only [List.mem_cons, List.not_mem_nil, or_false]
  split_ifs <;> first | rfl | tauto

theorem mem_nodes_foldl (hd : List String) (rows : List (List Cell)) :
    ∀ (g : DiGraph) (m : Cell),
      m ∈ (rows.foldl (processRow hd) g).nodes ↔
        m ∈ g.nodes ∨ ∃ r ∈ rows, m ∈ rowNodes hd r := by
  induction rows with
  | nil => intro g m; simp
  | cons r rs ih =>
    intro g m
    rw [List.foldl_cons, ih, nodes_processRow_iff]
    constructor
    · rintro ((hg | hr) | ⟨r1, hr1, hm⟩)
      · exact Or.inl hg
      · exact Or.inr ⟨r, List.mem_cons_self r rs, hr⟩
      · exact Or.inr ⟨r1, List.mem_cons_of_mem r hr1, hm⟩
    · rintro (hg | ⟨r1, hr1, hm⟩)
      · exact Or.inl (Or.inl hg)
      · rcases List.mem_cons.mp hr1 with h1 | h2
        · subst h1
          exact Or.inl (Or.inr hm)
        · exact Or.inr ⟨r1, h2, hm⟩

theorem mem_edges_foldl (hd : List String) (rows : List (List Cell)) :
    ∀ (g : DiGraph) (e : Cell × Cell),
      e ∈ (rows.foldl (processRow hd) g).edges ↔
        e ∈ g.edges ∨ ∃ r ∈ rows, e ∈ rowEdges hd r := by
  induction rows with
  | nil => intro g e; simp
  | cons r rs ih =>
    intro g e
    rw [List.foldl_cons, ih, edges_processRow_iff]
    constructor
    · rintro ((hg | hr) | ⟨r1, hr1, hm⟩)
      · exact Or.inl hg
      · exact Or.inr ⟨r, List.mem_cons_self r rs, hr⟩
      · exact Or.inr ⟨r1, List.mem_cons_of_mem r hr1, hm⟩
    · rintro (hg | ⟨r1, hr1, hm⟩)
      · exact Or.inl (Or.inl hg)
      · rcases List.mem_cons.mp hr1 with h1 | h2
        · subst h1
          exact Or.inl (Or.inr hm)
        · exact Or.inr ⟨r1, h2, hm⟩

theorem nodup_edges_foldl (hd : List String) (rows : List (List Cell)) :
    ∀ (g : DiGraph), g.edges.Nodup → (rows.foldl (processRow hd) g).edges.Nodup := by
  induction rows with
  | nil => intro g hg; exact hg
  | cons r rs ih =>
    intro g hg
    rw [List.foldl_cons]
    exact ih _ (nodup_processRow hd g r hg)

theorem getCompliance_foldl (hd : List String) (rows : List (List Cell)) :
    ∀ (g : DiGraph) (e : Cell × Cell),
      getCompliance (rows.foldl (processRow hd) g) e =
        ((rows.filter (fun r => decide (e ∈ rowEdges hd r))).getLast?).elim
          (getCompliance g e) (fun r => some (rowCompliance hd r)) := by
  induction rows with
  | nil => intro g e; simp
  | cons r rs ih =>
    intro g e
    rw [List.foldl_cons, ih, List.filter_cons]
    by_cases hp : e ∈ rowEdges hd r
    · rw [if_pos (by simpa using hp)]
      cases hfil : rs.filter (fun r => decide (e ∈ rowEdges hd r)) with
      | nil =>
        simp only [hfil, Option.elim, List.getLast?_singleton, List.getLast?_nil]
        rw [getCompliance_processRow, if_pos hp]
      | cons y ys =>
        rw [List.getLast?_cons_cons]
        cases hz : (y :: ys).getLast? with
        | none => exact absurd (List.getLast?_eq_none_iff.mp hz) (List.cons_ne_nil y ys)
        | some z => simp [hz]
    · rw [if_neg (by simpa using hp)]
      have hc : getCompliance (processRow hd g r) e = getCompliance g e := by
        rw [getCompliance_processRow, if_neg hp]
      rw [hc]

theorem mem_nodes_build (t : Table) (m : Cell) :
    m ∈ (generate_data_flow_diagram t).nodes ↔ ∃ r ∈ t.rows, m ∈ rowNodes t.header r := by
  unfold generate_data_flow_diagram
  rw [mem_nodes_foldl]
  simp [DiGraph.empty]

theorem mem_edges_build (t : Table) (e : Cell × Cell) :
    e ∈ (generate_data_flow_diagram t).edges ↔ ∃ r ∈ t.rows, e ∈ rowEdges t.header r := by
  unfold generate_data_flow_diagram
  rw [mem_edges_foldl]
  simp [DiGraph.empty]

theorem nodup_edges_build (t : Table) : (generate_data_flow_diagram t).edges.Nodup := by
  unfold generate_data_flow_diagram
  exact nodup_edges_foldl _ _ _ List.nodup_nil

theorem getCompliance_build (t : Table) (e : Cell × Cell) :
    getCompliance (generate_data_flow_diagram t) e =
      ((t.rows.filter (fun r => decide (e ∈ rowEdges t.header r))).getLast?).map
        (rowCompliance t.header) := by
  unfold generate_data_flow_diagram
  rw [getCompliance_foldl]
  cases (t.rows.filter (fun r => decide (e ∈ rowEdges t.header r))).getLast? with
  | none => rfl
  | some z => rfl

theorem lexLe_nil (b : List Char) : lexLe [] b = true := rfl

theorem lexLe_cons_nil (a : Char) (as : List Char) : lexLe (a :: as) [] = false := rfl

theorem lexLe_cons_iff (x y : Char) (xs ys : List Char) :
    lexLe (x :: xs) (y :: ys) = true ↔ x < y ∨ (x = y ∧ lexLe xs ys = true) := by
  simp only [lexLe]
  split_ifs with h1 h2
  · simp [h1]
  · simp [h1, h2]
  · simp [h1, h2]

theorem lexLe_trans (a : List Char) :
    ∀ b c, lexLe a b = true → lexLe b c = true → lexLe a c = true := by
  induction a with
  | nil => intro b c _ _; exact lexLe_nil c
  | cons x xs ih =>
    intro b c h1 h2
    cases b with
    | nil => rw [lexLe_cons_nil] at h1; exact absurd h1 (by simp)
    | cons y ys =>
      cases c with
      | nil => rw [lexLe_cons_nil] at h2; exact absurd h2 (by simp)
      | cons z zs =>
        rw [lexLe_cons_iff] at h1 h2 ⊢
        rcases h1 with hlt1 | ⟨heq1, hr1⟩
        · rcases h2 with hlt2 | ⟨heq2, hr2⟩
          · exact Or.inl (lt_trans hlt1 hlt2)
          · exact Or.inl (heq2 ▸ hlt1)
        · rcases h2 with hlt2 | ⟨heq2, hr2⟩
          · exact Or.inl (heq1 ▸ hlt2)
          · exact Or.inr ⟨heq1.trans heq2, ih ys zs hr1 hr2⟩

theorem lexLe_antisymm (a : List Char) :
    ∀ b, lexLe a b = true → lexLe b a = true → a = b := by
  induction a with
  | nil =>
    intro b h1 h2
    cases b with
    | nil => rfl
    | cons y ys => rw [lexLe_cons_nil] at h2; exact absurd h2 (by simp)
  | cons x xs ih =>
    intro b h1 h2
    cases b with
    | nil => rw [lexLe_cons_nil] at h1; exact absurd h1 (by simp)
    | cons y ys =>
      rw [lexLe_cons_iff] at h1 h2
      rcases h1 with hlt1 | ⟨heq1, hr1⟩
      · rcases h2 with hlt2 | ⟨heq2, hr2⟩
        · exact absurd hlt2 (lt_asymm hlt1)
        · exact absurd (heq2 ▸ hlt1) (lt_irrefl y)
      · rcases h2 with hlt2 | ⟨heq2, hr2⟩
        · exact absurd (heq1 ▸ hlt2) (lt_irrefl y)
        · rw [heq1, ih ys hr1 hr2]

theorem lexLe_total (a : List Char) :
    ∀ b, lexLe a b = true ∨ lexLe b a = true := by
  induction a with
  | nil => intro b; exact Or.inl (lexLe_nil b)
  | cons x xs ih =>
    intro b
    cases b with
    | nil => exact Or.inr (lexLe_nil _)
    | cons y ys =>
      rcases lt_trichotomy x y with h | h | h
      · exact Or.inl ((lexLe_cons_iff _ _ _ _).mpr (Or.inl h))
      · rcases ih ys with h2 | h2
        · exact Or.inl ((lexLe_cons_iff _ _ _ _).mpr (Or.inr ⟨h, h2⟩))
        · exact Or.inr ((lexLe_cons_iff _ _ _ _).mpr (Or.inr ⟨h.symm, h2⟩))
      · exact Or.inr ((lexLe_cons_iff _ _ _ _).mpr (Or.inl h))

theorem strLeProp_trans (a b c : String) (h1 : strLeProp a b) (h2 : strLeProp b c) :
    strLeProp a c :=
  lexLe_trans a.toList b.toList c.toList h1 h2

theorem strLeProp_antisymm (a b : String) (h1 : strLeProp a b) (h2 : strLeProp b a) :
    a = b :=
  String.ext (lexLe_antisymm a.toList b.toList h1 h2)

theorem strLeProp_total (a b : String) : strLeProp a b ∨ strLeProp b a :=
  lexLe_total a.toList b.toList

instance : IsAntisymm String strLeProp :=
  ⟨strLeProp_antisymm⟩

theorem perm_insertLine (s : String) (l : List String) :
    (insertLine s l).Perm (s :: l) := by
  induction l with
  | nil => exact List.Perm.refl _
  | cons x xs ih =>
    unfold insertLine
    split_ifs with h
    · exact List.Perm.refl _
    · exact (List.Perm.cons x ih).trans (List.Perm.swap s x xs)

theorem perm_sortLines (l : List String) : (sortLines l).Perm l := by
  induction l with
  | nil => exact List.Perm.refl _
  | cons x xs ih =>
    exact (perm_insertLine x (sortLines xs)).trans (List.Perm.cons x ih)

theorem sorted_insertLine (s : String) (l : List String)
    (hl : l.Sorted strLeProp) : (insertLine s l).Sorted strLeProp := by
  induction l with
  | nil => simp [insertLine]
  | cons x xs ih =>
    unfold insertLine
    rcases List.sorted_cons.mp hl with ⟨hx, hxs⟩
    split_ifs with h
    · rw [List.sorted_cons]
      refine ⟨?_, hl⟩
      intro b hb
      rcases List.mem_cons.mp hb with h1 | h2
      · subst h1; exact h
      · exact strLeProp_trans s x b h (hx b h2)
    · rw [List.sorted_cons]
      refine ⟨?_, ih hxs⟩
      intro b hb
      have hb2 : b ∈ s :: xs := (perm_insertLine s xs).mem_iff.mp hb
      rcases List.mem_cons.mp hb2 with h1 | h2
      · subst h1
        rcases strLeProp_total x b with h3 | h3
        · exact h3
        · exact absurd h3 h
      · exact hx b h2

theorem sorted_sortLines (l : List String) : (sortLines l).Sorted strLeProp := by
  induction l with
  | nil => simp [sortLines]
  | cons x xs ih => exact sorted_insertLine x (sortLines xs) ih

theorem sortLines_eq_of_perm (l1 l2 : List String) (h : l1.Perm l2) :
    sortLines l1 = sortLines l2 :=
  List.eq_of_perm_of_sorted
    ((perm_sortLines l1).trans (h.trans (perm_sortLines l2).symm))
    (sorted_sortLines l1) (sorted_sortLines l2)

theorem sanitize_chars (s : String) :
    ∀ c ∈ (sanitize_label s).toList, allowedChar c = true := by
  intro c hc
  unfold sanitize_label at hc
  dsimp only at hc
  exact (List.mem_filter.mp hc).2

theorem allowedChar_not_bad (c : Char) (h : allowedChar c = true) :
    c.isWhitespace = false ∧ c ≠ dquoteChar ∧ c ≠ slashChar := by
  refine ⟨?_, ?_, ?_⟩
  · by_contra hw
    rw [Bool.not_eq_false] at hw
    simp only [Char.isWhitespace, Bool.or_eq_true, decide_eq_true_eq] at hw
    rcases hw with ((h1 | h1) | h1) | h1 <;> (subst h1; exact absurd h (by decide))
  · intro h1
    subst h1
    exact absurd h (by decide)
  · intro h1
    subst h1
    exact absurd h (by decide)

theorem forall₂_map_self {α β : Type} (R : α → β → Prop) (f : α → β) (l : List α)
    (h : ∀ a, R a (f a)) : List.Forall₂ R l (l.map f) := by
  induction l with
  | nil => exact List.Forall₂.nil
  | cons x xs ih => exact List.Forall₂.cons (h x) ih

theorem card_insert_erase (x : Cell) (s : Finset Cell) :
    (insert x s).card = (s.erase x).card + 1 := by
  by_cases hx : x ∈ s
  · rw [Finset.insert_eq_self.mpr hx]
    exact (Finset.card_erase_add_one hx).symm
  · rw [Finset.card_insert_of_not_mem hx, Finset.erase_eq_of_not_mem hx]

theorem pd_uniqueAux_length (l : List Cell) :
    ∀ seen : List Cell,
      (pd_uniqueAux l seen).length = (l.toFinset \ seen.toFinset).card := by
  induction l with
  | nil => intro seen; simp [pd_uniqueAux]
  | cons x xs ih =>
    intro seen
    unfold pd_uniqueAux
    split_ifs with hx
    · rw [ih seen]
      congr 1
      ext a
      simp only [List.toFinset_cons, Finset.mem_sdiff, Finset.mem_insert, List.mem_toFinset,
        List.mem_cons]
      constructor
      · rintro ⟨h1, hns⟩
        exact ⟨Or.inr h1, hns⟩
      · rintro ⟨h1 | h1, hns⟩
        · subst h1
          exact absurd hx hns
        · exact ⟨h1, hns⟩
    · rw [List.length_cons, ih (x :: seen), List.toFinset_cons, List.toFinset_cons,
        Finset.sdiff_insert, Finset.insert_sdiff_of_not_mem _ (by simpa using hx),
        card_insert_erase]

theorem pd_unique_length (l : List Cell) : (pd_unique l).length = l.toFinset.card := by
  unfold pd_unique
  rw [pd_uniqueAux_length]
  simp

theorem mem_missing_cols (t : Table) (c : String) :
    c ∈ missing_cols t ↔ c ∈ expected_columns ∧ c ∉ t.header := by
  unfold missing_cols
  rw [List.mem_filter]
  simp

/-- C1: for a table missing at least one required column, `process_data`
reports exactly the set of absent required names (and no others) and the
pipeline produces neither a normalized table, nor a diagram, nor a summary. -/
theorem C1_missing_columns_short_circuit (t : Table)
    (h : ∃ c ∈ expected_columns, c ∉ t.header) :
    process_data t = .error (missing_cols t) ∧
      (∀ c, c ∈ missing_cols t ↔ c ∈ expected_columns ∧ c ∉ t.header) ∧
      pipeline t = none := by
  obtain ⟨c0, hc0, hn0⟩ := h
  have hmem : c0 ∈ missing_cols t := (mem_missing_cols t c0).mpr ⟨hc0, hn0⟩
  have hne : missing_cols t ≠ [] := List.ne_nil_of_mem hmem
  have hproc : process_data t = .error (missing_cols t) := by
    unfold process_data
    rw [if_neg hne]
  refine ⟨hproc, fun c => mem_missing_cols t c, ?_⟩
  unfold pipeline
  rw [hproc]

/-- Witness for C1 at a concrete table missing most required columns. -/
theorem C1_witness :
    process_data tMissing = .error (missing_cols tMissing) ∧
      (∀ c, c ∈ missing_cols tMissing ↔ c ∈ expected_columns ∧ c ∉ tMissing.header) ∧
      pipeline tMissing = none :=
  C1_missing_columns_short_circuit tMissing ⟨"Functional Area", by decide, by decide⟩

/-- C7: the Normalizer replaces every missing cell (in every column) by the
sentinel `N/A`, and it is idempotent. -/
theorem C7_normalizer_fill_idempotent (t : Table) :
    fillna (fillna t) = fillna t ∧
      List.Forall₂ (List.Forall₂ (fun c c2 => c = none → c2 = some "N/A"))
        t.rows (fillna t).rows := by
  constructor
  · simp [fillna, List.map_map, Function.comp_def]
  · unfold fillna
    dsimp only
    exact forall₂_map_self _ _ _
      (fun r => forall₂_map_self _ _ _ (fun c hc => by rw [hc]; rfl))

/-- C10: normalization changes nothing but missing cells: columns, row count,
row order, and every present cell are preserved. -/
theorem C10_normalizer_frame (t : Table) :
    (fillna t).header = t.header ∧
      (fillna t).rows.length = t.rows.length ∧
      List.Forall₂ (List.Forall₂ (fun c c2 => ∀ s, c = some s → c2 = some s))
        t.rows (fillna t).rows := by
  refine ⟨rfl, ?_, ?_⟩
  · unfold fillna
    dsimp only
    rw [List.length_map]
  · unfold fillna
    dsimp only
    exact forall₂_map_self _ _ _
      (fun r => forall₂_map_self _ _ _ (fun c s hc => by rw [hc]; rfl))

/-- C8: the Summary Reporter reports, for every required column, the number of
distinct cell values (sentinel included); on a column reading `A`, `B`, `A`,
`N/A` after normalization it reports `3`. -/
theorem C8_summary_distinct_counts :
    (∀ t : Table, generate_analysis_summary t =
        expected_columns.map (fun col => (col, (colCells t col).toFinset.card))) ∧
      colCells (fillna tSummaryRaw) "Use Case/Scenario" =
        [some "A", some "B", some "A", some "N/A"] ∧
      (generate_analysis_summary (fillna tSummaryRaw)).head? =
        some ("Use Case/Scenario", 3) := by
  refine ⟨?_, by decide, by decide⟩
  intro t
  unfold generate_analysis_summary
  apply List.map_congr_left
  intro col _
  rw [pd_unique_length]

/-- C2 counterexample: in the graph-mode code of `src/app.py` the node used
as a graph endpoint is the raw cell value, so a cell `Sales DB` yields an
endpoint containing whitespace. -/
theorem C2_counterexample :
    (some "Sales DB") ∈ (generate_data_flow_diagram tSales).nodes ∧
      spaceChar ∈ "Sales DB".toList ∧ spaceChar.isWhitespace = true := by
  decide

/-- C2 (amended): the Label Sanitizer's output contains only letters, digits,
underscores and dashes — never whitespace, double quotes, or slashes; the
graph-mode variant in `src/app.py` uses raw cell values as endpoints. -/
theorem C2_sanitizer_charset (s : String) :
    ((sanitize_label s).toList.all allowedChar = true) ∧
      ((sanitize_label s).toList.all
        (fun c => !c.isWhitespace && !(c == dquoteChar) && !(c == slashChar)) = true) := by
  constructor
  · rw [List.all_eq_true]
    intro c hc
    exact sanitize_chars s c hc
  · rw [List.all_eq_true]
    intro c hc
    obtain ⟨h1, h2, h3⟩ := allowedChar_not_bad c (sanitize_chars s c hc)
    simp [h1, h2, h3]

/-- C3 counterexample: two validated tables with the same rows in opposite
order produce different per-edge compliance annotations (last-writer-wins). -/
theorem C3_counterexample :
    tPerm1.header = tPerm2.header ∧
      tPerm1.rows.Perm tPerm2.rows ∧
      missing_cols tPerm1 = [] ∧
      getCompliance (generate_data_flow_diagram tPerm1) (some "S", some "Agg") ≠
        getCompliance (generate_data_flow_diagram tPerm2) (some "S", some "Agg") := by
  refine ⟨rfl, List.Perm.swap _ _ _, by decide, by decide⟩

/-- C3 (amended): under permutation of input row order the node set, the edge
set, and the text-mode diagram are invariant; the per-edge compliance
annotation is not (see the counterexample). -/
theorem C3_order_invariance (t1 t2 : Table) (hh : t1.header = t2.header)
    (hp : t1.rows.Perm t2.rows) :
    (∀ n, n ∈ (generate_data_flow_diagram t1).nodes ↔
        n ∈ (generate_data_flow_diagram t2).nodes) ∧
      (∀ e, e ∈ (generate_data_flow_diagram t1).edges ↔
        e ∈ (generate_data_flow_diagram t2).edges) ∧
      text_flow_diagram t1 = text_flow_diagram t2 := by
  refine ⟨?_, ?_, ?_⟩
  · intro n
    rw [mem_nodes_build, mem_nodes_build, hh]
    constructor
    · rintro ⟨r, hr, hm⟩
      exact ⟨r, hp.mem_iff.mp hr, hm⟩
    · rintro ⟨r, hr, hm⟩
      exact ⟨r, hp.mem_iff.mpr hr, hm⟩
  · intro e
    rw [mem_edges_build, mem_edges_build, hh]
    constructor
    · rintro ⟨r, hr, hm⟩
      exact ⟨r, hp.mem_iff.mp hr, hm⟩
    · rintro ⟨r, hr, hm⟩
      exact ⟨r, hp.mem_iff.mpr hr, hm⟩
  · unfold text_flow_diagram
    rw [hh]
    congr 1
    exact sortLines_eq_of_perm _ _ ((List.Perm.flatMap_right _ hp).dedup)

/-- Witness for C3 (amended) at two concrete row-permuted tables. -/
theorem C3_witness :
    (∀ n, n ∈ (generate_data_flow_diagram tPerm1).nodes ↔
        n ∈ (generate_data_flow_diagram tPerm2).nodes) ∧
      (∀ e, e ∈ (generate_data_flow_diagram tPerm1).edges ↔
        e ∈ (generate_data_flow_diagram tPerm2).edges) ∧
      text_flow_diagram tPerm1 = text_flow_diagram tPerm2 :=
  C3_order_invariance tPerm1 tPerm2 rfl (List.Perm.swap _ _ _)

/-- C4: a table whose rows yield `K` distinct (source, aggregate, analyze,
publish) label tuples produces at most `3 * K` edges: duplicate `(from, to)`
pairs collapse to a single edge. -/
theorem C4_edge_dedup_bound (t : Table) :
    (generate_data_flow_diagram t).edges.length ≤
      3 * ((t.rows.map (rowTuple t.header)).toFinset.card) := by
  have hnd := nodup_edges_build t
  rw [← List.toFinset_card_of_nodup hnd]
  have hsub : (generate_data_flow_diagram t).edges.toFinset ⊆
      ((t.rows.map (rowTuple t.header)).toFinset).biUnion
        (fun q => (tupleEdges q).toFinset) := by
    intro e he
    rw [List.mem_toFinset, mem_edges_build] at he
    obtain ⟨r, hr, hre⟩ := he
    rw [Finset.mem_biUnion]
    refine ⟨rowTuple t.header r, ?_, ?_⟩
    · rw [List.mem_toFinset, List.mem_map]
      exact ⟨r, hr, rfl⟩
    · rw [List.mem_toFinset]
      simpa [rowEdges, tupleEdges, rowTuple] using hre
  calc (generate_data_flow_diagram t).edges.toFinset.card
      ≤ (((t.rows.map (rowTuple t.header)).toFinset).biUnion
          (fun q => (tupleEdges q).toFinset)).card := Finset.card_le_card hsub
    _ ≤ ∑ q ∈ (t.rows.map (rowTuple t.header)).toFinset, (tupleEdges q).toFinset.card :=
        Finset.card_biUnion_le
    _ ≤ ((t.rows.map (rowTuple t.header)).toFinset).card • 3 :=
        Finset.sum_le_card_nsmul _ _ 3
          (fun q _ => by simpa using List.toFinset_card_le (tupleEdges q))
    _ = 3 * ((t.rows.map (rowTuple t.header)).toFinset).card := by
        rw [smul_eq_mul, Nat.mul_comm]

/-- C5: in the graph-mode variant each edge's compliance attribute equals the
Compliance cell of the last row (in table order) that emitted that edge. -/
theorem C5_last_writer_wins (t : Table) (e : Cell × Cell)
    (_he : e ∈ (generate_data_flow_diagram t).edges) :
    getCompliance (generate_data_flow_diagram t) e =
      ((t.rows.filter (fun r => decide (e ∈ rowEdges t.header r))).getLast?).map
        (rowCompliance t.header) :=
  getCompliance_build t e

/-- Witness for C5 at a table whose two rows reproduce the same edges with
disagreeing compliance values. -/
theorem C5_witness :
    (((some "S", some "Agg") : Cell × Cell) ∈ (generate_data_flow_diagram tPerm1).edges) ∧
      getCompliance (generate_data_flow_diagram tPerm1) (some "S", some "Agg") =
        ((tPerm1.rows.filter
          (fun r => decide ((some "S", some "Agg") ∈ rowEdges tPerm1.header r))).getLast?).map
          (rowCompliance tPerm1.header) :=
  ⟨by decide, C5_last_writer_wins tPerm1 (some "S", some "Agg") (by decide)⟩

/-- C6 counterexample: the graph-mode builder of `src/app.py` does not
sanitize: the round-trip row yields the raw endpoint `Sales DB`, not the
sanitized `Sales_DB`, and no `Sales_DB --> ETL-Spark` edge. -/
theorem C6_counterexample :
    (some "Sales DB") ∈ (generate_data_flow_diagram tSales).nodes ∧
      (some "Sales_DB") ∉ (generate_data_flow_diagram tSales).nodes ∧
      ((some "Sales_DB", some "ETL-Spark") : Cell × Cell) ∉
        (generate_data_flow_diagram tSales).edges := by
  decide

/-- C6 (amended): on the round-trip row the graph-mode builder produces
exactly the three raw-label edges, each exactly once even when the row is
duplicated; the spec's Label Sanitizer maps the four cells to `Sales_DB`,
`ETL-Spark`, `Tableau`, `Data_Portal`, and the text-mode diagram holds the
three sanitized edge lines exactly once. -/
theorem C6_round_trip :
    (generate_data_flow_diagram tSalesDup).edges =
      [(some "Sales DB", some "ETL/Spark"), (some "ETL/Spark", some "Tableau"),
        (some "Tableau", some "Data Portal")] ∧
      sanitize_label "Sales DB" = "Sales_DB" ∧
      sanitize_label "ETL/Spark" = "ETL-Spark" ∧
      sanitize_label "Tableau" = "Tableau" ∧
      sanitize_label "Data Portal" = "Data_Portal" ∧
      text_flow_diagram tSalesDup =
        ["flowchart LR;", "ETL-Spark --> Tableau;", "Sales_DB --> ETL-Spark;",
          "Tableau --> Data_Portal;"] := by
  decide

/-- C9: every row's four stage labels are members of the output graph's node
set, including identical adjacent labels (self-loop edges). -/
theorem C9_nodes_registered (t : Table) (r : List Cell) (hr : r ∈ t.rows) :
    getCell t.header r "Where data is sourced from" ∈
        (generate_data_flow_diagram t).nodes ∧
      getCell t.header r "Platform used to aggregate data" ∈
        (generate_data_flow_diagram t).nodes ∧
      getCell t.header r "Platform used to analyze data" ∈
        (generate_data_flow_diagram t).nodes ∧
      getCell t.header r "Platform used to publish curated data" ∈
        (generate_data_flow_diagram t).nodes := by
  refine ⟨?_, ?_, ?_, ?_⟩ <;>
    · rw [mem_nodes_build]
      exact ⟨r, hr, by simp [rowNodes]⟩

/-- Witness for C9 at a table whose single row has identical adjacent stage
labels (self-loops). -/
theorem C9_witness :
    getCell tSelfLoop.header (exRow "X" "X" "Y" "Y" "C") "Where data is sourced from" ∈
        (generate_data_flow_diagram tSelfLoop).nodes ∧
      getCell tSelfLoop.header (exRow "X" "X" "Y" "Y" "C")
          "Platform used to aggregate data" ∈ (generate_data_flow_diagram tSelfLoop).nodes ∧
      getCell tSelfLoop.header (exRow "X" "X" "Y" "Y" "C")
          "Platform used to analyze data" ∈ (generate_data_flow_diagram tSelfLoop).nodes ∧
      getCell tSelfLoop.header (exRow "X" "X" "Y" "Y" "C")
          "Platform used to publish curated data" ∈ (generate_data_flow_diagram tSelfLoop).nodes :=
  C9_nodes_registered tSelfLoop (exRow "X" "X" "Y" "Y" "C") (by decide)
